import Mathlib

/-! P-DMA ECC error injection example: parity encoder, fault handler, injection controller.

A shallow embedding of `main.c`.  Machine integers are natural numbers; a
reduction modulo `2 ^ w` is written out wherever the C type can wrap.
-/

namespace PdmaEcc

/-! ## Macros and types of `main.c` -/

/-- The P-DMA test channel, `#define TEST_CH 5`. -/
def TEST_CH : Nat := 5

/-- Shift to the upper 32-bit word of a 64-bit value, `#define SHIFT_TO_UPPER_32BIT_WORD 32`. -/
def SHIFT_TO_UPPER_32BIT_WORD : Nat := 32

/-- The macro `GET_SRAM_WORD_ADDRESS(ch, w)`, `((ch) * 2 + (w))`. -/
def GET_SRAM_WORD_ADDRESS (ch w : Nat) : Nat := ch * 2 + w

/-- The enumeration `TargetSramWordType`: each channel has two SRAM words. -/
inductive TargetSramWordType where
  | TARGET_SRAM_WORD_0
  | TARGET_SRAM_WORD_1
  deriving DecidableEq, Repr

/-- The integer value of an enumerator of `TargetSramWordType`. -/
def TargetSramWordType.toNat : TargetSramWordType → Nat
  | .TARGET_SRAM_WORD_0 => 0
  | .TARGET_SRAM_WORD_1 => 1

/-! ## Parity encoder -/

/-- The loop of `do64BitXorReduction`:
`for (countOneBits = 0; data64 != 0; countOneBits++) data64 &= (data64 - 1);`
with `countOneBits` a `uint8_t`, so the increment wraps modulo 256.  The
subtraction is only reached with `data64 != 0` and cannot wrap. -/
def do64BitXorReduction.loop (data64 countOneBits : Nat) : Nat :=
  if data64 = 0 then countOneBits
  else do64BitXorReduction.loop (data64 &&& (data64 - 1)) ((countOneBits + 1) % 256)
termination_by data64
decreasing_by
  have h : data64 &&& (data64 - 1) ≤ data64 - 1 := Nat.and_le_right
  omega

/-- The function `do64BitXorReduction`: run the loop from `countOneBits = 0`, then
`return ((countOneBits % 2) == 0) ? 0 : 1;`. -/
def do64BitXorReduction (data64 : Nat) : Nat :=
  if (do64BitXorReduction.loop data64 0) % 2 = 0 then 0 else 1

/-- The loop of `do64BitXorReduction` run with a bound on the number of times its body may
execute: `fuel` passes of `data64 &= (data64 - 1); countOneBits++`.  The result is `none`
when the loop condition `data64 != 0` still holds after `fuel` passes, and the value of
`countOneBits` at loop exit otherwise. -/
def do64BitXorReduction.loopFuel : Nat → Nat → Nat → Option Nat
  | fuel, data64, countOneBits =>
    if data64 = 0 then some countOneBits
    else
      match fuel with
      | 0 => none
      | fuel + 1 =>
        do64BitXorReduction.loopFuel fuel (data64 &&& (data64 - 1)) ((countOneBits + 1) % 256)

/-- The table `ECC_P[7]` of `getParityForValue`, verbatim. -/
def ECC_P : List Nat :=
  [ 0x037F36DB22542AAB,
    0x05BDEB5A44994D35,
    0x09DDDCEE08E271C6,
    0x11EEBBA98F0381F8,
    0x21F6D775F003FE00,
    0x41FB6DB4FFFC0000,
    0x8103FFF8112C965F ]

/-- The local `wordAddr` of `getParityForValue`, a `uint64_t`. -/
def getParityForValue.wordAddr (channel : Nat) (targetWord : TargetSramWordType) : Nat :=
  GET_SRAM_WORD_ADDRESS channel targetWord.toNat % 2 ^ 64

/-- The local `codeWord64` of `getParityForValue`:
`value32 | (wordAddr << SHIFT_TO_UPPER_32BIT_WORD)` in 64-bit arithmetic. -/
def getParityForValue.codeWord64 (channel : Nat) (targetWord : TargetSramWordType)
    (value32 : Nat) : Nat :=
  value32 ||| ((getParityForValue.wordAddr channel targetWord <<< SHIFT_TO_UPPER_32BIT_WORD) % 2 ^ 64)

/-- One pass of the body of the `for` loop of `getParityForValue`:
`parity |= (do64BitXorReduction(codeWord64 & ECC_P[cnt]) << cnt);` with `parity` a
`uint8_t` (the shift is done in `int`, the assignment truncates to 8 bits). -/
def getParityForValue.step (codeWord64 parity cnt : Nat) : Nat :=
  (parity ||| ((do64BitXorReduction (codeWord64 &&& ECC_P.getD cnt 0) <<< cnt) % 2 ^ 32)) % 256

/-- The function `getParityForValue(channel, targetWord, value32)`: `cnt` runs over
`0 .. sizeof(ECC_P)/sizeof(ECC_P[0]) - 1`, starting from `parity = 0`. -/
def getParityForValue (channel : Nat) (targetWord : TargetSramWordType) (value32 : Nat) : Nat :=
  (List.range ECC_P.length).foldl
    (getParityForValue.step (getParityForValue.codeWord64 channel targetWord value32)) 0

/-! ## Reference notions used to state the contract of the encoder -/

/-- The XOR of the 64 bits of `x` (bit `0` to bit `63`). -/
def xorOfBits64 (x : Nat) : Bool :=
  (List.range 64).foldl (fun acc j => xor acc (x.testBit j)) false

/-- The number of set bits of `x` among bit `0` to bit `63`. -/
def popCount64 (x : Nat) : Nat :=
  ((List.range 64).filter (fun j => x.testBit j)).length

/-- The logical address of a storage location, `channel_index * 2 + word_selector`. -/
def logicalAddress (channel : Nat) (w : TargetSramWordType) : Nat :=
  channel * 2 + w.toNat

/-- The codeword of the specification: the data value in the low half and the logical
address shifted into the high half, `value | (address << 32)`. -/
def specCodeWord (channel : Nat) (w : TargetSramWordType) (v : Nat) : Nat :=
  v ||| (logicalAddress channel w <<< 32)

/-- The number of set bits among the `n` low bits of `x`. -/
def popCountBits : Nat → Nat → Nat
  | 0, _ => 0
  | n + 1, x => x % 2 + popCountBits n (x / 2)

/-- The XOR of the `n` low bits of `x`, lowest bit first. -/
def xorLowBits : Nat → Nat → Bool
  | 0, _ => false
  | n + 1, x => xor (decide (x % 2 = 1)) (xorLowBits n (x / 2))

/-- Packing seven bits with the loop body of `getParityForValue`. -/
def packStep (f : Nat → Bool) (parity cnt : Nat) : Nat :=
  (parity ||| (((if f cnt then 1 else 0) <<< cnt) % 2 ^ 32)) % 256

/-! ## The parity-check matrix read column-wise, and syndrome decoding over it -/

/-- Column `j` of the parity-check matrix given by `ECC_P`: the 7-bit vector whose
bit `i` is bit `j` of `ECC_P[i]`. -/
def eccColumn (j : Nat) : Nat :=
  (List.range ECC_P.length).foldl
    (fun col i => col ||| ((if (ECC_P.getD i 0).testBit j then 1 else 0) <<< i)) 0

/-- The syndrome of a stored (injected) parity against the parity recomputed from the
codeword. -/
def eccSyndrome (storedParity recomputedParity : Nat) : Nat :=
  storedParity ^^^ recomputedParity

/-- The codeword positions `0..63` whose column equals the syndrome `s`. -/
def columnPositions (s : Nat) : List Nat :=
  (List.range 64).filter (fun j => eccColumn j = s)

/-- The classification of a fault event. -/
inductive FaultClass where
  | None
  | Correctable
  | NonCorrectable
  deriving DecidableEq

/-- Syndrome decoding over the matrix: a zero syndrome is no fault, a syndrome equal to the
column of some codeword position is a single-bit error at that position, any other syndrome
cannot be attributed to a single bit. -/
def classifySyndrome (s : Nat) : FaultClass :=
  if s = 0 then .None
  else if columnPositions s = [] then .NonCorrectable
  else .Correctable

/-- The codeword after correction: the bit at the position the syndrome is attributed to is
flipped; without such a position the codeword is left alone. -/
def correctCodeWord (codeWord s : Nat) : Nat :=
  match columnPositions s with
  | j :: _ => codeWord ^^^ (1 <<< j)
  | [] => codeWord

/-! ## Fault notification: `handleFaultIrq` -/

/-- The P-DMA instances `DW0` and `DW1`. -/
inductive DwInstance where
  | DW0
  | DW1
  deriving DecidableEq

/-- The P-DMA test instance, `#define TEST_PDMA DW0`. -/
def TEST_PDMA : DwInstance := .DW0

/-- Fault assignment, `#define CY_SYSFAULT_DW0_C_ECC 66`. -/
def CY_SYSFAULT_DW0_C_ECC : Nat := 66

/-- Fault assignment, `#define CY_SYSFAULT_DW0_NC_ECC 67`. -/
def CY_SYSFAULT_DW0_NC_ECC : Nat := 67

/-- Fault assignment, `#define CY_SYSFAULT_DW1_C_ECC 68`. -/
def CY_SYSFAULT_DW1_C_ECC : Nat := 68

/-- Fault assignment, `#define CY_SYSFAULT_DW1_NC_ECC 69`. -/
def CY_SYSFAULT_DW1_NC_ECC : Nat := 69

/-- Number of bytes in a 32-bit word, `#define BYTES_PER_32_BIT_WORD 4`. -/
def BYTES_PER_32_BIT_WORD : Nat := 4

/-- The three global flags written by the fault handler and read by the test code. -/
structure FaultFlags where
  g_faultIrqOccurred : Bool
  g_faultIrqOccurredDwCorrectableEcc : Bool
  g_faultIrqOccurredDwNonCorrectableEcc : Bool
  deriving DecidableEq

/-- The lines `handleFaultIrq` prints, with the values they carry. -/
inductive HandlerLine where
  | handlerEntered
  | correctableDetected
  | nonCorrectableDetected
  | wordAddress (a : Nat)
  | eccSyndromeInfo (s : Nat)
  | unexpectedSource (s : Nat)
  deriving DecidableEq

/-- What `handleFaultIrq` acts on: the flags, the console, and whether the status and the
interrupt of `FAULT_STRUCT0` are still pending. -/
structure HandlerState where
  flags : FaultFlags
  console : List HandlerLine
  statusPending : Bool
  interruptPending : Bool
  deriving DecidableEq

/-- The initial values of the three globals (all `false`); also what `executeTestAccess`
resets them to. -/
def idleFlags : FaultFlags :=
  { g_faultIrqOccurred := false
    g_faultIrqOccurredDwCorrectableEcc := false
    g_faultIrqOccurredDwNonCorrectableEcc := false }

/-- The local `faultIdDwCorrectableEcc` of `handleFaultIrq`. -/
def handleFaultIrq.faultIdDwCorrectableEcc : Nat :=
  if TEST_PDMA = .DW0 then CY_SYSFAULT_DW0_C_ECC else CY_SYSFAULT_DW1_C_ECC

/-- The local `faultIdDwNonCorrectableEcc` of `handleFaultIrq`. -/
def handleFaultIrq.faultIdDwNonCorrectableEcc : Nat :=
  if TEST_PDMA = .DW0 then CY_SYSFAULT_DW0_NC_ECC else CY_SYSFAULT_DW1_NC_ECC

/-- The function `handleFaultIrq`.  The three values read from `FAULT_STRUCT0`
(`faultAddress`, `faultInfo`, `errorSource`) are arguments. -/
def handleFaultIrq (faultAddress faultInfo errorSource : Nat) (st : HandlerState) :
    HandlerState :=
  let st := { st with console := st.console ++ [HandlerLine.handlerEntered] }
  let st :=
    if errorSource = handleFaultIrq.faultIdDwCorrectableEcc ∨
        errorSource = handleFaultIrq.faultIdDwNonCorrectableEcc then
      let st :=
        if errorSource = handleFaultIrq.faultIdDwCorrectableEcc then
          { st with
            flags := { st.flags with g_faultIrqOccurredDwCorrectableEcc := true }
            console := st.console ++ [HandlerLine.correctableDetected] }
        else
          { st with
            flags := { st.flags with g_faultIrqOccurredDwNonCorrectableEcc := true }
            console := st.console ++ [HandlerLine.nonCorrectableDetected] }
      { st with
        console := st.console ++
          [HandlerLine.wordAddress (faultAddress / BYTES_PER_32_BIT_WORD), HandlerLine.eccSyndromeInfo faultInfo] }
    else
      { st with console := st.console ++ [HandlerLine.unexpectedSource errorSource] }
  let st := { st with flags := { st.flags with g_faultIrqOccurred := true } }
  let st := { st with statusPending := false }
  { st with interruptPending := false }

/-- The Idle state of the handler: all three flags false, nothing printed yet, a fault
pending in `FAULT_STRUCT0`. -/
def idleState : HandlerState :=
  { flags := idleFlags, console := [], statusPending := true, interruptPending := true }

/-! ## Injection controller: `injectParity` -/

/-- Modelled from the spec: the `_Pos` and `_Msk` constants of a register field come from the
device header, which is not part of the source; a field is given by these two numbers. -/
structure RegField where
  Pos : Nat
  Msk : Nat

/-- Modelled from the spec: the three register fields `injectParity` names (target parity
value, target word address, injection-enable toggle). -/
structure DwFields where
  DW_ECC_CTL_PARITY : RegField
  DW_ECC_CTL_WORD_ADDR : RegField
  DW_CTL_ECC_INJ_EN : RegField

/-- Modelled from the spec: the macro `_VAL2FLD(field, value)`, which is declared outside the
source: `(((uint32_t)(value) << field_Pos) & field_Msk)`. -/
def VAL2FLD (field : RegField) (value : Nat) : Nat :=
  (((value % 2 ^ 32) <<< field.Pos) % 2 ^ 32) &&& field.Msk

/-- Modelled from the spec: the field read-out `(reg & field_Msk) >> field_Pos`. -/
def FLD2VAL (field : RegField) (reg : Nat) : Nat :=
  (reg &&& field.Msk) >>> field.Pos

/-- The 32-bit complement `(uint32_t)(~x)`. -/
def not32 (x : Nat) : Nat :=
  (2 ^ 32 - 1) ^^^ (x % 2 ^ 32)

/-- Modelled from the spec: the macro `CY_REG32_CLR_SET(reg, field, value)`, which is declared
outside the source; the new register value is
`(reg & (uint32_t)(~field_Msk)) | _VAL2FLD(field, value)`. -/
def CY_REG32_CLR_SET (reg : Nat) (field : RegField) (value : Nat) : Nat :=
  (reg &&& not32 field.Msk) ||| VAL2FLD field value

/-- The registers of the P-DMA instance that `injectParity` touches. -/
structure DW_Type where
  CTL : Nat
  ECC_CTL : Nat
  SRAM_DATA0 : Nat → Nat
  SRAM_DATA1 : Nat → Nat

/-- One register access of `injectParity`. -/
inductive RegOp where
  | writeECC_CTL (v : Nat)
  | readCTL (v : Nat)
  | writeCTL (v : Nat)
  | readSRAM_DATA (ch : Nat) (word : TargetSramWordType) (v : Nat)
  | writeSRAM_DATA (ch : Nat) (word : TargetSramWordType) (v : Nat)
  deriving DecidableEq

/-- The function `injectParity(channel, targetWord, parity)`: the final register state and the
ordered list of register accesses. -/
def injectParity (F : DwFields) (channel : Nat) (targetWord : TargetSramWordType)
    (parity : Nat) (dw : DW_Type) : DW_Type × List RegOp :=
  let wordAddr := GET_SRAM_WORD_ADDRESS channel targetWord.toNat % 2 ^ 32
  let eccCtl := VAL2FLD F.DW_ECC_CTL_PARITY parity ||| VAL2FLD F.DW_ECC_CTL_WORD_ADDR wordAddr
  let dw := { dw with ECC_CTL := eccCtl }
  let tr := [RegOp.writeECC_CTL eccCtl]
  let ctlRead := dw.CTL
  let ctlOn := CY_REG32_CLR_SET ctlRead F.DW_CTL_ECC_INJ_EN 1
  let dw := { dw with CTL := ctlOn }
  let tr := tr ++ [RegOp.readCTL ctlRead, RegOp.writeCTL ctlOn]
  let (dw, tr) :=
    match targetWord with
    | .TARGET_SRAM_WORD_0 =>
      let temp := dw.SRAM_DATA0 TEST_CH
      ({ dw with SRAM_DATA0 := Function.update dw.SRAM_DATA0 TEST_CH temp },
        tr ++ [RegOp.readSRAM_DATA TEST_CH .TARGET_SRAM_WORD_0 temp,
               RegOp.writeSRAM_DATA TEST_CH .TARGET_SRAM_WORD_0 temp])
    | .TARGET_SRAM_WORD_1 =>
      let temp := dw.SRAM_DATA1 TEST_CH
      ({ dw with SRAM_DATA1 := Function.update dw.SRAM_DATA1 TEST_CH temp },
        tr ++ [RegOp.readSRAM_DATA TEST_CH .TARGET_SRAM_WORD_1 temp,
               RegOp.writeSRAM_DATA TEST_CH .TARGET_SRAM_WORD_1 temp])
  let ctlRead := dw.CTL
  let ctlOff := CY_REG32_CLR_SET ctlRead F.DW_CTL_ECC_INJ_EN 0
  ({ dw with CTL := ctlOff }, tr ++ [RegOp.readCTL ctlRead, RegOp.writeCTL ctlOff])

/-- The SRAM data word `word` of channel `ch`. -/
def DW_Type.sramWord (dw : DW_Type) (ch : Nat) (word : TargetSramWordType) : Nat :=
  match word with
  | .TARGET_SRAM_WORD_0 => dw.SRAM_DATA0 ch
  | .TARGET_SRAM_WORD_1 => dw.SRAM_DATA1 ch

/-! ## Test sequencer: the parities injected and the verdicts of `main` -/

/-- The parity passed to `injectParity` in test step 2, `correctParity ^ 0x01` as `uint8_t`. -/
def main.step2Parity (correctParity : Nat) : Nat :=
  (correctParity ^^^ 0x01) % 256

/-- The parity passed to `injectParity` in test step 3, `correctParity ^ 0x03` as `uint8_t`. -/
def main.step3Parity (correctParity : Nat) : Nat :=
  (correctParity ^^^ 0x03) % 256

/-- The line a test step of `main` prints as its verdict. -/
inductive TestReport where
  | unexpectedFault
  | incorrectData
  | faultNotOccurred
  | wrongFaultSource
  | notCorrected
  | testOk
  deriving DecidableEq

/-- The verdict of test step 1; `testValue` is `(uint32_t)&g_dummyDmaDescriptor`. -/
def main.step1Verdict (flags : FaultFlags) (g_testReadData testValue : Nat) : TestReport :=
  if flags.g_faultIrqOccurred then .unexpectedFault
  else if g_testReadData ≠ testValue then .incorrectData
  else .testOk

/-- The verdict of test step 2. -/
def main.step2Verdict (flags : FaultFlags) (g_testReadData testValue : Nat) : TestReport :=
  if flags.g_faultIrqOccurred = false then .faultNotOccurred
  else if flags.g_faultIrqOccurredDwCorrectableEcc = false then .wrongFaultSource
  else if g_testReadData ≠ testValue then .notCorrected
  else .testOk

/-- The verdict of test step 3; the read data is not looked at. -/
def main.step3Verdict (flags : FaultFlags) : TestReport :=
  if flags.g_faultIrqOccurred = false then .faultNotOccurred
  else if flags.g_faultIrqOccurredDwNonCorrectableEcc = false then .wrongFaultSource
  else .testOk

/-! ## Lemmas on the bit-clearing loop -/

theorem popCountBits_le (n x : Nat) : popCountBits n x ≤ n := by
  induction n generalizing x with
  | zero => simp [popCountBits]
  | succ n ih =>
    have := ih (x / 2)
    simp only [popCountBits]
    omega

theorem popCountBits_zero (n : Nat) : popCountBits n 0 = 0 := by
  induction n with
  | zero => rfl
  | succ n ihn => simp [popCountBits, ihn]

theorem and_pred_mod_two (x : Nat) : (x &&& (x - 1)) % 2 = 0 := by
  have h := Nat.testBit_and x (x - 1) 0
  simp only [Nat.testBit_zero] at h
  rcases Nat.mod_two_eq_zero_or_one x with h0 | h1
  · rcases Nat.mod_two_eq_zero_or_one (x &&& (x - 1)) with h2 | h2
    · exact h2
    · simp [h0, h2] at h
  · have h3 : (x - 1) % 2 = 0 := by omega
    rcases Nat.mod_two_eq_zero_or_one (x &&& (x - 1)) with h2 | h2
    · exact h2
    · simp [h3, h2] at h

/-- Clearing the lowest set bit removes exactly one set bit. -/
theorem popCountBits_and_pred (n x : Nat) (hx : x ≠ 0) (hlt : x < 2 ^ n) :
    popCountBits n (x &&& (x - 1)) + 1 = popCountBits n x := by
  induction n generalizing x with
  | zero => simp at hlt; omega
  | succ n ih =>
    simp only [popCountBits]
    rw [and_pred_mod_two x, Nat.and_div_two]
    rcases Nat.mod_two_eq_zero_or_one x with h0 | h1
    · have e : (x - 1) / 2 = x / 2 - 1 := by omega
      have hne : x / 2 ≠ 0 := by omega
      have hl : x / 2 < 2 ^ n := by rw [Nat.pow_succ] at hlt; omega
      rw [e, h0]
      have := ih (x / 2) hne hl
      omega
    · have e : (x - 1) / 2 = x / 2 := by omega
      rw [e, h1, Nat.and_self]
      omega

/-- The loop counter, modulo 256, advances by the number of set bits. -/
theorem loop_popCount (n x c : Nat) (hlt : x < 2 ^ n) :
    do64BitXorReduction.loop x c % 256 = (c + popCountBits n x) % 256 := by
  induction x using Nat.strong_induction_on generalizing c with
  | _ x ih =>
    rw [do64BitXorReduction.loop]
    by_cases hx : x = 0
    · subst hx
      simp [popCountBits_zero]
    · rw [if_neg hx]
      have hle : x &&& (x - 1) ≤ x - 1 := Nat.and_le_right
      have h1 := ih (x &&& (x - 1)) (by omega) ((c + 1) % 256) (by omega)
      have h2 := popCountBits_and_pred n x hx hlt
      rw [h1]
      omega

theorem xorLowBits_eq_popCount (n x : Nat) :
    xorLowBits n x = decide (popCountBits n x % 2 = 1) := by
  induction n generalizing x with
  | zero => simp [xorLowBits, popCountBits]
  | succ n ih =>
    simp only [xorLowBits, popCountBits, ih]
    rcases Nat.mod_two_eq_zero_or_one x with h0 | h1
    · simp [h0]
    · rcases Nat.mod_two_eq_zero_or_one (popCountBits n (x / 2)) with h2 | h2
      · have h3 : (1 + popCountBits n (x / 2)) % 2 = 1 := by omega
        simp [h1, h2, h3]
      · have h3 : (1 + popCountBits n (x / 2)) % 2 = 0 := by omega
        simp [h1, h2, h3]

theorem xorLowBits_succ_high (n x : Nat) :
    xorLowBits (n + 1) x = xor (xorLowBits n x) (x.testBit n) := by
  induction n generalizing x with
  | zero => simp [xorLowBits, Nat.testBit_zero]
  | succ n ih =>
    have h := ih (x / 2)
    rw [xorLowBits, h, xorLowBits, Nat.testBit_succ]
    cases decide (x % 2 = 1) <;> cases xorLowBits n (x / 2) <;> cases (x / 2).testBit n <;> rfl

theorem foldl_range_xor (n x : Nat) :
    (List.range n).foldl (fun acc j => xor acc (x.testBit j)) false = xorLowBits n x := by
  induction n with
  | zero => rfl
  | succ n ih =>
    rw [List.range_succ, List.foldl_append, ih, xorLowBits_succ_high]
    rfl

theorem xorOfBits64_eq (x : Nat) : xorOfBits64 x = decide (popCountBits 64 x % 2 = 1) := by
  unfold xorOfBits64
  rw [foldl_range_xor, xorLowBits_eq_popCount]

/-- The reduction returns `1` exactly when the XOR of the 64 bits is set. -/
theorem do64BitXorReduction_eq (x : Nat) (hlt : x < 2 ^ 64) :
    do64BitXorReduction x = if xorOfBits64 x then 1 else 0 := by
  have h := loop_popCount 64 x 0 hlt
  have hle := popCountBits_le 64 x
  unfold do64BitXorReduction
  rw [xorOfBits64_eq]
  rcases Nat.mod_two_eq_zero_or_one (popCountBits 64 x) with h2 | h2
  · have : do64BitXorReduction.loop x 0 % 2 = 0 := by omega
    simp [this, h2]
  · have : do64BitXorReduction.loop x 0 % 2 = 1 := by omega
    simp [this, h2]

/-! ## The parity encoder against its reference -/

theorem codeWord64_eq_spec (channel : Nat) (w : TargetSramWordType) (v : Nat)
    (hc : channel < 256) :
    getParityForValue.codeWord64 channel w v = specCodeWord channel w v := by
  have hw : w.toNat < 2 := by cases w <;> decide
  unfold getParityForValue.codeWord64 getParityForValue.wordAddr specCodeWord logicalAddress
    GET_SRAM_WORD_ADDRESS SHIFT_TO_UPPER_32BIT_WORD
  have h1 : (channel * 2 + w.toNat) % 2 ^ 64 = channel * 2 + w.toNat :=
    Nat.mod_eq_of_lt (by omega)
  rw [h1, Nat.shiftLeft_eq]
  have h2 : (channel * 2 + w.toNat) * 2 ^ 32 % 2 ^ 64 = (channel * 2 + w.toNat) * 2 ^ 32 :=
    Nat.mod_eq_of_lt (by omega)
  rw [h2]

theorem and_ECC_P_lt (x i : Nat) : x &&& ECC_P.getD i 0 < 2 ^ 64 := by
  have h : ECC_P.getD i 0 < 2 ^ 64 := by
    rcases Nat.lt_or_ge i 7 with hi | hi
    · interval_cases i <;> decide
    · rw [List.getD_eq_default]
      · decide
      · simpa [ECC_P] using hi
  exact Nat.lt_of_le_of_lt Nat.and_le_right h

theorem pack_seven : ∀ b0 b1 b2 b3 b4 b5 b6 : Bool,
    let p := [0, 1, 2, 3, 4, 5, 6].foldl
      (fun parity cnt => (parity ||| (((if
        (match cnt with
          | 0 => b0 | 1 => b1 | 2 => b2 | 3 => b3 | 4 => b4 | 5 => b5 | _ => b6)
        then 1 else 0) <<< cnt) % 2 ^ 32)) % 256) 0
    p.testBit 0 = b0 ∧ p.testBit 1 = b1 ∧ p.testBit 2 = b2 ∧ p.testBit 3 = b3 ∧
      p.testBit 4 = b4 ∧ p.testBit 5 = b5 ∧ p.testBit 6 = b6 ∧ p < 128 := by
  decide

theorem packStep_bits (f : Nat → Bool) :
    (∀ i, i < 7 → ((List.range 7).foldl (packStep f) 0).testBit i = f i) ∧
    (List.range 7).foldl (packStep f) 0 < 128 := by
  have hr : List.range 7 = [0, 1, 2, 3, 4, 5, 6] := by decide
  have h := pack_seven (f 0) (f 1) (f 2) (f 3) (f 4) (f 5) (f 6)
  rw [hr]
  simp only [List.foldl, packStep] at h ⊢
  obtain ⟨h0, h1, h2, h3, h4, h5, h6, hlt⟩ := h
  refine ⟨?_, hlt⟩
  intro i hi
  interval_cases i
  · exact h0
  · exact h1
  · exact h2
  · exact h3
  · exact h4
  · exact h5
  · exact h6

theorem getParityForValue_eq_pack (channel : Nat) (w : TargetSramWordType) (v : Nat)
    (hc : channel < 256) :
    getParityForValue channel w v =
      (List.range 7).foldl
        (packStep (fun i => xorOfBits64 (specCodeWord channel w v &&& ECC_P.getD i 0))) 0 := by
  unfold getParityForValue
  rw [codeWord64_eq_spec channel w v hc]
  have hl : ECC_P.length = 7 := by decide
  have hstep : getParityForValue.step (specCodeWord channel w v) =
      packStep (fun i => xorOfBits64 (specCodeWord channel w v &&& ECC_P.getD i 0)) := by
    funext parity cnt
    unfold getParityForValue.step packStep
    rw [do64BitXorReduction_eq _ (and_ECC_P_lt _ _)]
  rw [hl, hstep]

/-- C1: for every channel below 256, every word selector and every 32-bit value, bit `i`
of `getParityForValue` (for `i` in `0..6`) is the XOR of all bits of
`codeword AND ECC_P[i]`, where `codeword = v | (address << 32)` and
`address = channel * 2 + w`; no other bit of the result is set. -/
theorem getParityForValue_eq_reference (channel : Nat) (w : TargetSramWordType) (v : Nat)
    (hc : channel < 256) (hv : v < 2 ^ 32) :
    (v ||| ((channel * 2 + w.toNat) <<< 32)) < 2 ^ 64 ∧
    (∀ i, i < 7 → (getParityForValue channel w v).testBit i =
        xorOfBits64 ((v ||| ((channel * 2 + w.toNat) <<< 32)) &&& ECC_P.getD i 0)) ∧
    (∀ i, 7 ≤ i → (getParityForValue channel w v).testBit i = false) := by
  have hw : w.toNat < 2 := by cases w <;> decide
  have hcw : (v ||| ((channel * 2 + w.toNat) <<< 32)) < 2 ^ 64 := by
    apply Nat.or_lt_two_pow
    · exact Nat.lt_of_lt_of_le hv (Nat.pow_le_pow_right (by decide) (by decide))
    · rw [Nat.shiftLeft_eq]
      omega
  rw [getParityForValue_eq_pack channel w v hc]
  obtain ⟨hbits, hlt⟩ :=
    packStep_bits (fun i => xorOfBits64 (specCodeWord channel w v &&& ECC_P.getD i 0))
  refine ⟨hcw, fun i hi => hbits i hi, fun i hi => ?_⟩
  apply Nat.testBit_lt_two_pow
  calc _ < 2 ^ 7 := hlt
    _ ≤ 2 ^ i := Nat.pow_le_pow_right (by decide) hi

/-- Witness for C1 at channel 5, word 1 (logical address 11) and value `0x28001234`. -/
theorem getParityForValue_eq_reference_witness :
    logicalAddress 5 .TARGET_SRAM_WORD_1 = 11 ∧ 5 < 256 ∧ 0x28001234 < 2 ^ 32 ∧
    (getParityForValue 5 .TARGET_SRAM_WORD_1 0x28001234).testBit 0 =
        xorOfBits64 ((0x28001234 ||| ((5 * 2 + TargetSramWordType.TARGET_SRAM_WORD_1.toNat) <<< 32))
          &&& ECC_P.getD 0 0) ∧
    (getParityForValue 5 .TARGET_SRAM_WORD_1 0x28001234).testBit 7 = false :=
  have h := getParityForValue_eq_reference 5 .TARGET_SRAM_WORD_1 0x28001234
    (by decide) (by decide)
  ⟨by decide, by decide, by decide, h.2.1 0 (by decide), h.2.2 7 (by decide)⟩

theorem parity_lt_128 (channel : Nat) (w : TargetSramWordType) (v : Nat) (hc : channel < 256) :
    getParityForValue channel w v < 128 := by
  rw [getParityForValue_eq_pack channel w v hc]
  exact (packStep_bits _).2

/-- The encoder evaluated at the location of the test (channel 5, word 1) for the value
`0x28001234`. -/
theorem getParityForValue_example :
    getParityForValue 5 .TARGET_SRAM_WORD_1 0x28001234 = 78 := by
  rw [getParityForValue_eq_pack 5 .TARGET_SRAM_WORD_1 0x28001234 (by decide)]
  decide!

/-- C2: for every channel below 256, every word selector and every 32-bit value, the
result of `getParityForValue` is strictly less than 128. -/
theorem getParityForValue_lt_128 (channel : Nat) (w : TargetSramWordType) (v : Nat)
    (hc : channel < 256) (_hv : v < 2 ^ 32) :
    getParityForValue channel w v < 128 ∧
      (getParityForValue channel w v).testBit 7 = false := by
  have h := parity_lt_128 channel w v hc
  exact ⟨h, Nat.testBit_lt_two_pow (by simpa using h)⟩

/-- Witness for C2 at channel 5, word 1 and value `0x28001234`. -/
theorem getParityForValue_lt_128_witness :
    5 < 256 ∧ 0x28001234 < 2 ^ 32 ∧
    (getParityForValue 5 .TARGET_SRAM_WORD_1 0x28001234 < 128 ∧
      (getParityForValue 5 .TARGET_SRAM_WORD_1 0x28001234).testBit 7 = false) :=
  ⟨by decide, by decide,
    getParityForValue_lt_128 5 .TARGET_SRAM_WORD_1 0x28001234 (by decide) (by decide)⟩

/-! ## The parity-check matrix -/

/-- Bit `i` of column `j` is bit `j` of `ECC_P[i]`, and a column has no bit above bit 6. -/
theorem eccColumn_testBit :
    ∀ j, j < 64 → (∀ i, i < 7 → (eccColumn j).testBit i = (ECC_P.getD i 0).testBit j) ∧
      eccColumn j < 128 := by
  decide!

theorem columnPositions_parity_bit : ∀ i, i < 7 → columnPositions (1 <<< i) = [57 + i] := by
  decide!

theorem columnPositions_three : columnPositions 3 = [] := by
  decide!

theorem eccColumn_ne_three : ∀ j, j < 64 → eccColumn j ≠ 3 := by
  decide!

theorem eccColumn_eq_parity_bit_iff :
    ∀ i, i < 7 → ∀ j, j < 64 → (eccColumn j = 1 <<< i ↔ j = 57 + i) := by
  decide!

theorem xor_flip_syndrome (p m : Nat) (hp : p < 128) (hm : m < 128) :
    eccSyndrome ((p ^^^ m) % 256) p = m := by
  have h : p ^^^ m < 2 ^ 7 := Nat.xor_lt_two_pow (by simpa using hp) (by simpa using hm)
  have h2 : (p ^^^ m) % 256 = p ^^^ m := Nat.mod_eq_of_lt (by omega)
  unfold eccSyndrome
  rw [h2, Nat.xor_comm p m, Nat.xor_assoc, Nat.xor_self, Nat.xor_zero]

theorem flip_high_bit_keeps_data (v a k : Nat) (hv : v < 2 ^ 32) (hk : 32 ≤ k) :
    ((v ||| (a <<< 32)) ^^^ (1 <<< k)) % 2 ^ 32 = v := by
  apply Nat.eq_of_testBit_eq
  intro n
  rw [Nat.testBit_mod_two_pow, Nat.testBit_xor, Nat.testBit_or, Nat.testBit_shiftLeft,
    Nat.one_shiftLeft, Nat.testBit_two_pow]
  rcases Nat.lt_or_ge n 32 with hn | hn
  · have h1 : ¬ n ≥ 32 := by omega
    have h2 : ¬ k = n := by omega
    simp [hn, h1, h2]
  · have h1 : ¬ n < 32 := by omega
    have h3 : v.testBit n = false :=
      Nat.testBit_lt_two_pow (Nat.lt_of_lt_of_le hv (Nat.pow_le_pow_right (by decide) hn))
    simp [h1, h3]

theorem classifySyndrome_parity_bit : ∀ i, i < 7 → classifySyndrome (1 <<< i) = .Correctable := by
  decide!

/-- Every column of the matrix has an odd number of set bits. -/
theorem eccColumn_odd_weight : ∀ j, j < 64 → xorLowBits 7 (eccColumn j) = true := by
  decide!

theorem eccColumn_injective : ∀ j, j < 64 → ∀ k, k < 64 → j ≠ k → eccColumn j ≠ eccColumn k := by
  decide!

theorem xorLowBits_xor (n a b : Nat) :
    xorLowBits n (a ^^^ b) = xor (xorLowBits n a) (xorLowBits n b) := by
  induction n generalizing a b with
  | zero => rfl
  | succ n ih =>
    have h0 := Nat.testBit_xor a b 0
    simp only [Nat.testBit_zero] at h0
    simp only [xorLowBits, Nat.xor_div_two, ih, h0]
    cases decide (a % 2 = 1) <;> cases decide (b % 2 = 1) <;> cases xorLowBits n (a / 2) <;>
      cases xorLowBits n (b / 2) <;> rfl

theorem xor_eq_zero_imp_eq (a b : Nat) (h : a ^^^ b = 0) : a = b := by
  have h1 : (a ^^^ b) ^^^ b = b := by rw [h, Nat.zero_xor]
  rw [Nat.xor_assoc, Nat.xor_self, Nat.xor_zero] at h1
  exact h1

/-- C3: single-bit sensitivity.  For every channel below 256, word selector, 32-bit value `v`
and `i` in `0..6`, with `P = getParityForValue channel w v`: the syndrome of the injected
parity `P XOR (1 << i)` against `P` is `1 << i`; among the 64 codeword positions exactly
position `57 + i` has a column equal to that syndrome; that position lies outside the data
bits `0..31`; the syndrome is classified Correctable and correcting the codeword leaves the
data value `v` as it was.  The case `i = 0` is the parity injected by test step 2. -/
theorem single_bit_flip_correctable (channel : Nat) (w : TargetSramWordType) (v i : Nat)
    (hc : channel < 256) (hv : v < 2 ^ 32) (hi : i < 7) :
    eccSyndrome ((getParityForValue channel w v ^^^ (1 <<< i)) % 256)
        (getParityForValue channel w v) = 1 <<< i ∧
    (∀ j, j < 64 → (eccColumn j = 1 <<< i ↔ j = 57 + i)) ∧
    columnPositions (1 <<< i) = [57 + i] ∧
    32 ≤ 57 + i ∧ 57 + i < 64 ∧
    classifySyndrome (1 <<< i) = .Correctable ∧
    correctCodeWord (getParityForValue.codeWord64 channel w v) (1 <<< i) % 2 ^ 32 = v ∧
    eccSyndrome (main.step2Parity (getParityForValue channel w v))
        (getParityForValue channel w v) = 1 <<< 0 := by
  have hP := parity_lt_128 channel w v hc
  have hm : 1 <<< i < 128 := by
    rw [Nat.one_shiftLeft]
    calc 2 ^ i ≤ 2 ^ 6 := Nat.pow_le_pow_right (by decide) (by omega)
      _ < 128 := by decide
  refine ⟨xor_flip_syndrome _ _ hP hm, eccColumn_eq_parity_bit_iff i hi,
    columnPositions_parity_bit i hi, by omega, by omega, classifySyndrome_parity_bit i hi, ?_,
    xor_flip_syndrome _ 1 hP (by decide)⟩
  unfold correctCodeWord
  rw [columnPositions_parity_bit i hi, codeWord64_eq_spec channel w v hc]
  exact flip_high_bit_keeps_data v _ (57 + i) hv (by omega)

/-- Witness for C3 at channel 5, word 1, value `0x28001234` and parity bit 0. -/
theorem single_bit_flip_correctable_witness :
    5 < 256 ∧ 0x28001234 < 2 ^ 32 ∧ 0 < 7 ∧
    eccSyndrome ((getParityForValue 5 .TARGET_SRAM_WORD_1 0x28001234 ^^^ (1 <<< 0)) % 256)
        (getParityForValue 5 .TARGET_SRAM_WORD_1 0x28001234) = 1 <<< 0 ∧
    columnPositions (1 <<< 0) = [57 + 0] ∧
    correctCodeWord (getParityForValue.codeWord64 5 .TARGET_SRAM_WORD_1 0x28001234) (1 <<< 0)
        % 2 ^ 32 = 0x28001234 :=
  have h := single_bit_flip_correctable 5 .TARGET_SRAM_WORD_1 0x28001234 0
    (by decide) (by decide) (by decide)
  ⟨by decide, by decide, by decide, h.1, h.2.2.1, h.2.2.2.2.2.2.1⟩

/-- C4: double-bit sensitivity.  For every channel below 256, word selector and 32-bit value,
with `P = getParityForValue channel w v`: the syndrome of the injected parity `P XOR 0x03`
against `P` is `0b0000011`, which is non-zero and is not the column of any of the 64 codeword
positions, so it is classified NonCorrectable. -/
theorem double_bit_flip_not_correctable (channel : Nat) (w : TargetSramWordType) (v : Nat)
    (hc : channel < 256) (_hv : v < 2 ^ 32) :
    eccSyndrome (main.step3Parity (getParityForValue channel w v))
        (getParityForValue channel w v) = 0b0000011 ∧
    eccSyndrome (main.step3Parity (getParityForValue channel w v))
        (getParityForValue channel w v) ≠ 0 ∧
    (∀ j, j < 64 → eccColumn j ≠ eccSyndrome (main.step3Parity (getParityForValue channel w v))
        (getParityForValue channel w v)) ∧
    columnPositions (eccSyndrome (main.step3Parity (getParityForValue channel w v))
        (getParityForValue channel w v)) = [] ∧
    classifySyndrome (eccSyndrome (main.step3Parity (getParityForValue channel w v))
        (getParityForValue channel w v)) = .NonCorrectable := by
  have hP := parity_lt_128 channel w v hc
  have hs : eccSyndrome (main.step3Parity (getParityForValue channel w v))
      (getParityForValue channel w v) = 3 := xor_flip_syndrome _ 3 hP (by decide)
  rw [hs]
  exact ⟨rfl, by decide, eccColumn_ne_three, columnPositions_three, by decide!⟩

/-- Witness for C4 at channel 5, word 1 and value `0x28001234`. -/
theorem double_bit_flip_not_correctable_witness :
    5 < 256 ∧ 0x28001234 < 2 ^ 32 ∧
    eccSyndrome (main.step3Parity (getParityForValue 5 .TARGET_SRAM_WORD_1 0x28001234))
        (getParityForValue 5 .TARGET_SRAM_WORD_1 0x28001234) = 0b0000011 ∧
    classifySyndrome (eccSyndrome (main.step3Parity
        (getParityForValue 5 .TARGET_SRAM_WORD_1 0x28001234))
        (getParityForValue 5 .TARGET_SRAM_WORD_1 0x28001234)) = .NonCorrectable :=
  have h := double_bit_flip_not_correctable 5 .TARGET_SRAM_WORD_1 0x28001234
    (by decide) (by decide)
  ⟨by decide, by decide, h.1, h.2.2.2.2⟩

/-- C5: the code given by the seven `ECC_P` masks is single-error-correcting and
double-error-detecting: for all positions `j`, `k`, `m` in `0..63` with `j ≠ k`, column `j`
is non-zero, column `j` differs from column `k`, and the XOR of columns `j` and `k` is
non-zero and differs from column `m`. -/
theorem ECC_P_sec_ded (j k m : Nat) (hj : j < 64) (hk : k < 64) (hm : m < 64) (hjk : j ≠ k) :
    eccColumn j ≠ 0 ∧ eccColumn j ≠ eccColumn k ∧ eccColumn j ^^^ eccColumn k ≠ 0 ∧
      eccColumn j ^^^ eccColumn k ≠ eccColumn m := by
  have oj := eccColumn_odd_weight j hj
  have ok := eccColumn_odd_weight k hk
  have om := eccColumn_odd_weight m hm
  have hne := eccColumn_injective j hj k hk hjk
  refine ⟨?_, hne, fun h => hne (xor_eq_zero_imp_eq _ _ h), ?_⟩
  · intro h
    rw [h] at oj
    exact absurd oj (by decide)
  · intro h
    have hx := xorLowBits_xor 7 (eccColumn j) (eccColumn k)
    rw [h, oj, ok, om] at hx
    exact absurd hx (by decide)

/-- Witness for C5 at positions 0, 1 and 2. -/
theorem ECC_P_sec_ded_witness :
    0 < 64 ∧ 1 < 64 ∧ 2 < 64 ∧ 0 ≠ 1 ∧
    (eccColumn 0 ≠ 0 ∧ eccColumn 0 ≠ eccColumn 1 ∧ eccColumn 0 ^^^ eccColumn 1 ≠ 0 ∧
      eccColumn 0 ^^^ eccColumn 1 ≠ eccColumn 2) :=
  ⟨by decide, by decide, by decide, by decide,
    ECC_P_sec_ded 0 1 2 (by decide) (by decide) (by decide) (by decide)⟩

/-! ## The fault handler -/

/-- C6: for every error source `s` and every prior state, `handleFaultIrq` leaves the general
flag true; the correctable flag becomes true when `s` is the correctable ID (66 for `DW0`) and
is unchanged otherwise; the non-correctable flag becomes true when `s` is the
non-correctable ID (67 for `DW0`) and is unchanged otherwise.  So when `s` matches neither
ID the general flag is set and both classification flags keep their prior values. -/
theorem handleFaultIrq_flags (faultAddress faultInfo s : Nat) (st : HandlerState) :
    handleFaultIrq.faultIdDwCorrectableEcc = 66 ∧
    handleFaultIrq.faultIdDwNonCorrectableEcc = 67 ∧
    (handleFaultIrq faultAddress faultInfo s st).flags.g_faultIrqOccurred = true ∧
    (handleFaultIrq faultAddress faultInfo s st).flags.g_faultIrqOccurredDwCorrectableEcc =
      (if s = 66 then true else st.flags.g_faultIrqOccurredDwCorrectableEcc) ∧
    (handleFaultIrq faultAddress faultInfo s st).flags.g_faultIrqOccurredDwNonCorrectableEcc =
      (if s = 67 then true else st.flags.g_faultIrqOccurredDwNonCorrectableEcc) ∧
    (handleFaultIrq faultAddress faultInfo s st).flags =
      (if s = 66 then { st.flags with
          g_faultIrqOccurred := true, g_faultIrqOccurredDwCorrectableEcc := true }
       else if s = 67 then { st.flags with
          g_faultIrqOccurred := true, g_faultIrqOccurredDwNonCorrectableEcc := true }
       else { st.flags with g_faultIrqOccurred := true }) := by
  have h66 : handleFaultIrq.faultIdDwCorrectableEcc = 66 := by decide
  have h67 : handleFaultIrq.faultIdDwNonCorrectableEcc = 67 := by decide
  refine ⟨h66, h67, ?_⟩
  unfold handleFaultIrq
  rw [h66, h67]
  by_cases h1 : s = 66
  · subst h1
    simp
  · by_cases h2 : s = 67
    · subst h2
      simp
    · simp [h1, h2]

/-- C7, as stated, fails: from the Idle state a correctable fault (source 66) followed by a
non-correctable fault (source 67) leaves both classification flags set, unlike the
non-correctable fault alone. -/
theorem handleFaultIrq_second_fault_keeps_first :
    (handleFaultIrq 0 0 67 (handleFaultIrq 0 0 66 idleState)).flags ≠
      (handleFaultIrq 0 0 67 idleState).flags := by
  decide

/-- C7, amended: the flags of an earlier unconsumed fault are kept, not overwritten.  For every
pair of error sources `s1`, `s2`, running `handleFaultIrq` for `s1` and then for `s2` from a
state with all three flags false leaves the general flag true and each classification flag
true exactly when `s1` alone or `s2` alone sets it; the result equals that of `s2` alone
exactly when `s1 = s2` or `s1` is neither 66 nor 67. -/
theorem handleFaultIrq_flags_accumulate (a1 i1 s1 a2 i2 s2 : Nat) (st : HandlerState) :
    (handleFaultIrq a2 i2 s2 (handleFaultIrq a1 i1 s1 { st with flags := idleFlags })).flags =
      { g_faultIrqOccurred := true
        g_faultIrqOccurredDwCorrectableEcc := decide (s1 = 66) || decide (s2 = 66)
        g_faultIrqOccurredDwNonCorrectableEcc := decide (s1 = 67) || decide (s2 = 67) } ∧
    (handleFaultIrq a2 i2 s2 { st with flags := idleFlags }).flags =
      { g_faultIrqOccurred := true
        g_faultIrqOccurredDwCorrectableEcc := decide (s2 = 66)
        g_faultIrqOccurredDwNonCorrectableEcc := decide (s2 = 67) } ∧
    ((handleFaultIrq a2 i2 s2 (handleFaultIrq a1 i1 s1 { st with flags := idleFlags })).flags =
        (handleFaultIrq a2 i2 s2 { st with flags := idleFlags }).flags ↔
      (s1 = s2 ∨ (s1 ≠ 66 ∧ s1 ≠ 67))) := by
  have h66 : handleFaultIrq.faultIdDwCorrectableEcc = 66 := by decide
  have h67 : handleFaultIrq.faultIdDwNonCorrectableEcc = 67 := by decide
  unfold handleFaultIrq idleFlags
  rw [h66, h67]
  by_cases h1 : s1 = 66 <;> by_cases h2 : s1 = 67 <;> by_cases h3 : s2 = 66 <;>
    by_cases h4 : s2 = 67 <;> simp [h1, h2, h3, h4] <;> omega

/-! ## The injection controller -/

theorem VAL2FLD_zero (field : RegField) : VAL2FLD field 0 = 0 := by
  simp [VAL2FLD]

theorem and_not32_and (reg m : Nat) : (reg &&& not32 m) &&& m = 0 := by
  apply Nat.eq_of_testBit_eq
  intro n
  simp only [Nat.testBit_and, not32, Nat.testBit_xor, Nat.testBit_two_pow_sub_one,
    Nat.testBit_mod_two_pow, Nat.zero_testBit]
  by_cases hn : n < 32 <;> cases m.testBit n <;> simp [hn]

theorem CLR_SET_zero_field (reg : Nat) (field : RegField) :
    FLD2VAL field (CY_REG32_CLR_SET reg field 0) = 0 := by
  unfold FLD2VAL CY_REG32_CLR_SET
  rw [VAL2FLD_zero, Nat.or_zero, and_not32_and, Nat.zero_shiftRight]

theorem injectParity_ops (F : DwFields) (channel : Nat) (w : TargetSramWordType)
    (parity : Nat) (dw : DW_Type) :
    (injectParity F channel w parity dw).2 =
      [ RegOp.writeECC_CTL (VAL2FLD F.DW_ECC_CTL_PARITY parity |||
          VAL2FLD F.DW_ECC_CTL_WORD_ADDR (GET_SRAM_WORD_ADDRESS channel w.toNat % 2 ^ 32)),
        RegOp.readCTL dw.CTL,
        RegOp.writeCTL (CY_REG32_CLR_SET dw.CTL F.DW_CTL_ECC_INJ_EN 1),
        RegOp.readSRAM_DATA TEST_CH w (dw.sramWord TEST_CH w),
        RegOp.writeSRAM_DATA TEST_CH w (dw.sramWord TEST_CH w),
        RegOp.readCTL (CY_REG32_CLR_SET dw.CTL F.DW_CTL_ECC_INJ_EN 1),
        RegOp.writeCTL
          (CY_REG32_CLR_SET (CY_REG32_CLR_SET dw.CTL F.DW_CTL_ECC_INJ_EN 1)
            F.DW_CTL_ECC_INJ_EN 0) ] ∧
    (injectParity F channel w parity dw).1.CTL =
      CY_REG32_CLR_SET (CY_REG32_CLR_SET dw.CTL F.DW_CTL_ECC_INJ_EN 1) F.DW_CTL_ECC_INJ_EN 0 := by
  cases w <;> exact ⟨rfl, rfl⟩

/-- C8 fails on the code: called for channel 0, word 0, `injectParity` programs the word
address of channel 0 (which is 0) into `ECC_CTL`, but its read-modify-write goes to the
SRAM data word 0 of channel `TEST_CH = 5` (word address 10); channel 0 is neither read nor
written. -/
theorem injectParity_channel_0_accesses_TEST_CH (F : DwFields) (dw : DW_Type) :
    (injectParity F 0 .TARGET_SRAM_WORD_0 0 dw).2 =
      [ RegOp.writeECC_CTL (VAL2FLD F.DW_ECC_CTL_PARITY 0 ||| VAL2FLD F.DW_ECC_CTL_WORD_ADDR 0),
        RegOp.readCTL dw.CTL,
        RegOp.writeCTL (CY_REG32_CLR_SET dw.CTL F.DW_CTL_ECC_INJ_EN 1),
        RegOp.readSRAM_DATA 5 .TARGET_SRAM_WORD_0 (dw.SRAM_DATA0 5),
        RegOp.writeSRAM_DATA 5 .TARGET_SRAM_WORD_0 (dw.SRAM_DATA0 5),
        RegOp.readCTL (CY_REG32_CLR_SET dw.CTL F.DW_CTL_ECC_INJ_EN 1),
        RegOp.writeCTL
          (CY_REG32_CLR_SET (CY_REG32_CLR_SET dw.CTL F.DW_CTL_ECC_INJ_EN 1)
            F.DW_CTL_ECC_INJ_EN 0) ] ∧
    GET_SRAM_WORD_ADDRESS 0 TargetSramWordType.TARGET_SRAM_WORD_0.toNat = 0 ∧
    GET_SRAM_WORD_ADDRESS 5 TargetSramWordType.TARGET_SRAM_WORD_0.toNat = 10 :=
  ⟨rfl, rfl, rfl⟩

/-- C9: the ordered register accesses of `injectParity`, for every location, parity and prior
register state: the write of parity and word address to `ECC_CTL`, then the read-modify-write
of `CTL` that sets `ECC_INJ_EN` to 1, then the read of the storage word, then its
write-back, and only then the read-modify-write of `CTL` that sets `ECC_INJ_EN` to 0; on
return the `ECC_INJ_EN` field of `CTL` is 0 whatever `CTL` held before. -/
theorem injectParity_ordering (F : DwFields) (channel : Nat) (w : TargetSramWordType)
    (parity : Nat) (dw : DW_Type) :
    (injectParity F channel w parity dw).2 =
      [ RegOp.writeECC_CTL (VAL2FLD F.DW_ECC_CTL_PARITY parity |||
          VAL2FLD F.DW_ECC_CTL_WORD_ADDR (GET_SRAM_WORD_ADDRESS channel w.toNat % 2 ^ 32)),
        RegOp.readCTL dw.CTL,
        RegOp.writeCTL (CY_REG32_CLR_SET dw.CTL F.DW_CTL_ECC_INJ_EN 1),
        RegOp.readSRAM_DATA TEST_CH w (dw.sramWord TEST_CH w),
        RegOp.writeSRAM_DATA TEST_CH w (dw.sramWord TEST_CH w),
        RegOp.readCTL (CY_REG32_CLR_SET dw.CTL F.DW_CTL_ECC_INJ_EN 1),
        RegOp.writeCTL
          (CY_REG32_CLR_SET (CY_REG32_CLR_SET dw.CTL F.DW_CTL_ECC_INJ_EN 1)
            F.DW_CTL_ECC_INJ_EN 0) ] ∧
    FLD2VAL F.DW_CTL_ECC_INJ_EN (injectParity F channel w parity dw).1.CTL = 0 := by
  obtain ⟨h1, h2⟩ := injectParity_ops F channel w parity dw
  refine ⟨h1, ?_⟩
  rw [h2]
  exact CLR_SET_zero_field _ _

/-! ## The verdicts of the test sequencer -/

/-- C10: for every state of the three flags and every read-back value, with `V` the known test
value: the verdict of step 1 is `TEST OK` iff the general fault flag is false and the
read-back equals `V`; the verdict of step 2 is `TEST OK` iff the general flag is true, the
correctable flag is true and the read-back equals `V`; the verdict of step 3 is `TEST OK` iff
the general flag is true and the non-correctable flag is true (it does not depend on the
read-back). -/
theorem main_verdicts (flags : FaultFlags) (g_testReadData V : Nat) :
    (main.step1Verdict flags g_testReadData V = .testOk ↔
      (flags.g_faultIrqOccurred = false ∧ g_testReadData = V)) ∧
    (main.step2Verdict flags g_testReadData V = .testOk ↔
      (flags.g_faultIrqOccurred = true ∧ flags.g_faultIrqOccurredDwCorrectableEcc = true ∧
        g_testReadData = V)) ∧
    (main.step3Verdict flags = .testOk ↔
      (flags.g_faultIrqOccurred = true ∧
        flags.g_faultIrqOccurredDwNonCorrectableEcc = true)) := by
  obtain ⟨o, c, n⟩ := flags
  unfold main.step1Verdict main.step2Verdict main.step3Verdict
  by_cases h : g_testReadData = V <;> cases o <;> cases c <;> cases n <;> simp [h]

/-! ## Termination and iteration count of the reduction loop -/

theorem popCountBits_succ_high (n x : Nat) :
    popCountBits (n + 1) x = popCountBits n x + (if x.testBit n then 1 else 0) := by
  induction n generalizing x with
  | zero =>
    rcases Nat.mod_two_eq_zero_or_one x with h | h <;> simp [popCountBits, Nat.testBit_zero, h]
  | succ n ih =>
    have h := ih (x / 2)
    rw [popCountBits, h, popCountBits, Nat.testBit_succ]
    omega

theorem filter_range_testBit_length (n x : Nat) :
    ((List.range n).filter (fun j => x.testBit j)).length = popCountBits n x := by
  induction n with
  | zero => rfl
  | succ n ih =>
    rw [List.range_succ, List.filter_append, List.length_append, ih, popCountBits_succ_high]
    cases h : x.testBit n <;> simp [List.filter, h]

theorem popCount64_eq (x : Nat) : popCount64 x = popCountBits 64 x :=
  filter_range_testBit_length 64 x

theorem loop_lt_256 (x c : Nat) (hc : c < 256) : do64BitXorReduction.loop x c < 256 := by
  induction x using Nat.strong_induction_on generalizing c with
  | _ x ih =>
    rw [do64BitXorReduction.loop]
    by_cases hx : x = 0
    · rw [if_pos hx]
      exact hc
    · rw [if_neg hx]
      have hle : x &&& (x - 1) ≤ x - 1 := Nat.and_le_right
      exact ih (x &&& (x - 1)) (by omega) ((c + 1) % 256) (Nat.mod_lt _ (by decide))

theorem popCountBits_pos (n x : Nat) (hx : x ≠ 0) (hlt : x < 2 ^ n) : 0 < popCountBits n x := by
  have := popCountBits_and_pred n x hx hlt
  omega

/-- The bounded loop exits exactly when the bound is at least the number of set bits, and
then with the counter of the unbounded loop. -/
theorem loopFuel_eq (n fuel x c : Nat) (hlt : x < 2 ^ n) :
    do64BitXorReduction.loopFuel fuel x c =
      if popCountBits n x ≤ fuel then some (do64BitXorReduction.loop x c) else none := by
  induction fuel generalizing x c with
  | zero =>
    rw [do64BitXorReduction.loopFuel, do64BitXorReduction.loop]
    by_cases hx : x = 0
    · subst hx
      simp [popCountBits_zero]
    · have hp := popCountBits_pos n x hx hlt
      have hnle : ¬ popCountBits n x ≤ 0 := by omega
      rw [if_neg hx, if_neg hnle]
  | succ fuel ih =>
    rw [do64BitXorReduction.loopFuel, do64BitXorReduction.loop]
    by_cases hx : x = 0
    · subst hx
      simp [popCountBits_zero]
    · have hle : x &&& (x - 1) ≤ x - 1 := Nat.and_le_right
      have hstep := popCountBits_and_pred n x hx hlt
      rw [if_neg hx, if_neg hx]
      rw [ih (x &&& (x - 1)) ((c + 1) % 256) (by omega)]
      by_cases hf : popCountBits n (x &&& (x - 1)) ≤ fuel
      · have hf2 : popCountBits n x ≤ fuel + 1 := by omega
        rw [if_pos hf, if_pos hf2]
      · have hf2 : ¬ popCountBits n x ≤ fuel + 1 := by omega
        rw [if_neg hf, if_neg hf2]

theorem loop_eq_popCount64 (x : Nat) (hlt : x < 2 ^ 64) :
    do64BitXorReduction.loop x 0 = popCount64 x := by
  have h := loop_popCount 64 x 0 hlt
  have hle := popCountBits_le 64 x
  have hl := loop_lt_256 x 0 (by decide)
  rw [popCount64_eq]
  omega

/-- The bounded loop evaluated on the last mask of `ECC_P`: it exits after 32 passes and
not after 31. -/
theorem loopFuel_example :
    do64BitXorReduction.loopFuel 32 0x8103FFF8112C965F 0 = some 32 ∧
    do64BitXorReduction.loopFuel 31 0x8103FFF8112C965F 0 = none ∧
    popCount64 0x8103FFF8112C965F = 32 := by
  decide!

/-- C11: for every 64-bit input `x`, `do64BitXorReduction x` terminates and returns 1 if the
number of set bits of `x` is odd and 0 if it is even.  The clear-lowest-set-bit loop exits
after exactly `popcount x` passes (a bound of `fuel` passes is enough iff
`popcount x ≤ fuel`), `popcount x ≤ 64`, so 64 passes always suffice; the 8-bit counter at
loop exit is `popcount x` itself, not a wrapped value, and its value modulo 2 is the XOR of
all 64 bits of `x`. -/
theorem do64BitXorReduction_terminates_parity (x : Nat) (hlt : x < 2 ^ 64) :
    popCount64 x ≤ 64 ∧
    (∀ fuel, do64BitXorReduction.loopFuel fuel x 0 =
      if popCount64 x ≤ fuel then some (popCount64 x) else none) ∧
    do64BitXorReduction.loopFuel 64 x 0 = some (popCount64 x) ∧
    do64BitXorReduction.loop x 0 = popCount64 x ∧
    do64BitXorReduction.loop x 0 < 256 ∧
    do64BitXorReduction x = (if popCount64 x % 2 = 1 then 1 else 0) ∧
    do64BitXorReduction x = (if popCount64 x % 2 = 0 then 0 else 1) ∧
    (decide (do64BitXorReduction.loop x 0 % 2 = 1) = xorOfBits64 x) ∧
    do64BitXorReduction x = (if xorOfBits64 x then 1 else 0) := by
  have hle : popCount64 x ≤ 64 := by
    rw [popCount64_eq]
    exact popCountBits_le 64 x
  have hloop := loop_eq_popCount64 x hlt
  have hfuel : ∀ fuel, do64BitXorReduction.loopFuel fuel x 0 =
      if popCount64 x ≤ fuel then some (popCount64 x) else none := by
    intro fuel
    rw [loopFuel_eq 64 fuel x 0 hlt, hloop, popCount64_eq]
  have hx := xorOfBits64_eq x
  rw [← popCount64_eq] at hx
  have hred : do64BitXorReduction x = (if popCount64 x % 2 = 0 then 0 else 1) := by
    unfold do64BitXorReduction
    rw [hloop]
  refine ⟨hle, hfuel, ?_, hloop, ?_, ?_, hred, ?_, ?_⟩
  · rw [hfuel 64, if_pos hle]
  · omega
  · rw [hred]
    rcases Nat.mod_two_eq_zero_or_one (popCount64 x) with h | h <;> simp [h]
  · rw [hloop, hx]
  · rw [hred, hx]
    rcases Nat.mod_two_eq_zero_or_one (popCount64 x) with h | h <;> simp [h]

/-- Witness for C11 at the last mask of `ECC_P`. -/
theorem do64BitXorReduction_terminates_parity_witness :
    0x8103FFF8112C965F < 2 ^ 64 ∧
    popCount64 0x8103FFF8112C965F ≤ 64 ∧
    do64BitXorReduction.loopFuel 64 0x8103FFF8112C965F 0 =
      some (popCount64 0x8103FFF8112C965F) ∧
    do64BitXorReduction.loop 0x8103FFF8112C965F 0 = popCount64 0x8103FFF8112C965F ∧
    do64BitXorReduction 0x8103FFF8112C965F =
      (if popCount64 0x8103FFF8112C965F % 2 = 1 then 1 else 0) :=
  have h := do64BitXorReduction_terminates_parity 0x8103FFF8112C965F (by decide)
  ⟨by decide, h.1, h.2.2.1, h.2.2.2.1, h.2.2.2.2.2.1⟩

end PdmaEcc
